import Mathlib

/-!
Verification of the 8vfw-squadron-tracker qualification API.

This file gives a shallow embedding of the qualification routes of the
Express/PostgreSQL server (`server/src/routes/qualifications.ts` and the
schema in `server/src/db/migrate.ts`) and proves or refutes the frozen
claims about them.

Modelling conventions:
- UUIDs are modelled as `Nat` ids; tables are association lists kept in
  row order (the order PostgreSQL returns rows absent `ORDER BY` is
  unspecified; the code takes `rows[0]`, so we model "first returned row"
  as the first matching row of the list).
- `NOW()` is an abstract `now : Nat` passed to each write.
- JavaScript string operations (`trim`, `toUpperCase`) and SQL `ILIKE`
  are embedded as executable functions on `String.data`.
- The per-request transaction of the bulk import is modelled by running
  the loop against a working copy of the qualification table and only
  installing it on `COMMIT`; an injected `failAt` index models an
  unexpected store error while processing a record, which takes the
  `ROLLBACK` path.
-/

namespace Squadron

/-- A row of the `pilots` table (the columns the qualification routes read). -/
structure Pilot where
  id : Nat
  callsign : String
  wing_id : Nat
  deriving DecidableEq, Repr

/-- A row of the `skills` table (the columns the qualification routes read). -/
structure Skill where
  id : Nat
  name : String
  wing_id : Nat
  deriving DecidableEq, Repr

/-- A row of the `qualifications` table. -/
structure Qualification where
  pilot_id : Nat
  skill_id : Nat
  status : String
  last_updated : Nat
  updated_by : String
  deriving DecidableEq, Repr

/-- The relational store as seen by the qualification routes. -/
structure DB where
  pilots : List Pilot
  skills : List Skill
  quals : List Qualification
  deriving DecidableEq, Repr

/-- The authenticated caller (`req.user` from the JWT middleware):
`wing_id` is optional in the token payload. -/
structure Caller where
  email : String
  role : String
  wing_id : Option Nat
  deriving DecidableEq, Repr

/-- One parsed CSV record of the bulk import body. -/
structure ImportRecord where
  callsign : String
  skill_name : String
  status : String
  deriving DecidableEq, Repr

/-- JavaScript `String.prototype.trim`: drop leading and trailing whitespace. -/
def jsTrim (s : String) : String :=
  ⟨((s.data.dropWhile Char.isWhitespace).reverse.dropWhile Char.isWhitespace).reverse⟩

/-- JavaScript `String.prototype.toUpperCase` (ASCII, which covers the statuses). -/
def jsToUpper (s : String) : String :=
  ⟨s.data.map Char.toUpper⟩

/-- SQL `LIKE` pattern matching, case-folded for `ILIKE`: `%` matches any
sequence, `_` any single character, other characters match case-insensitively.
The route passes raw user text as the pattern, with no escaping. -/
def likeMatch : List Char → List Char → Bool
  | [], s => s.isEmpty
  | p :: ps, s =>
    if p = '%' then s.tails.any (fun t => likeMatch ps t)
    else
      match s with
      | [] => false
      | d :: cs => (if p = '_' then true else p.toLower == d.toLower) && likeMatch ps cs

/-- `stored ILIKE pat`. -/
def ilike (stored pat : String) : Bool :=
  likeMatch pat.data stored.data

/-- `SELECT id, wing_id FROM pilots WHERE callsign ILIKE $1`, then `rows[0]`. -/
def findPilot (pilots : List Pilot) (pat : String) : Option Pilot :=
  (pilots.filter (fun p => ilike p.callsign pat)).head?

/-- `SELECT id, wing_id FROM skills WHERE name ILIKE $1`, then `rows[0]`. -/
def findSkill (skills : List Skill) (pat : String) : Option Skill :=
  (skills.filter (fun s => ilike s.name pat)).head?

/-- `const validStatuses = ['NMQ', 'MQT', 'FMQ', 'IP']`. -/
def validStatuses : List String := ["NMQ", "MQT", "FMQ", "IP"]

/-- Does a qualification row for `(pid, sid)` exist (the `UNIQUE(pilot_id,
skill_id)` conflict test)? -/
def hasQual (quals : List Qualification) (pid sid : Nat) : Bool :=
  quals.any (fun q => q.pilot_id = pid ∧ q.skill_id = sid)

/-- `INSERT ... ON CONFLICT (pilot_id, skill_id) DO UPDATE SET status, last_updated,
updated_by`: insert a new row or overwrite the conflicting row's mutable columns. -/
def upsertQual (quals : List Qualification) (pid sid : Nat) (st who : String)
    (now : Nat) : List Qualification :=
  if hasQual quals pid sid then
    quals.map (fun q =>
      if q.pilot_id = pid ∧ q.skill_id = sid then
        { q with status := st, last_updated := now, updated_by := who }
      else q)
  else
    quals ++ [{ pilot_id := pid, skill_id := sid, status := st,
                last_updated := now, updated_by := who }]

/-- Outcome of processing one record of the bulk import body. -/
inductive RowOutcome where
  | ok (pilot_id skill_id : Nat) (status : String)
  | skip (msg : String)
  deriving DecidableEq, Repr

/-- The `Row ${i + 1}: ` text used by every per-record error message. -/
def rowTag (i : Nat) : String := "Row " ++ toString (i + 1) ++ ": "

/-- The body of the bulk-import loop for record `i` (`POST
/api/qualifications/bulk`, lines 528-586): the presence check, the status
check, the pilot `ILIKE` lookup, the instructor pilot-wing check, the skill
`ILIKE` lookup, the pilot-wing/skill-wing check, and the instructor
skill-wing check, in the source's order, short-circuiting with the matching
error message. -/
def processRecord (pilots : List Pilot) (skills : List Skill) (caller : Caller)
    (i : Nat) (r : ImportRecord) : RowOutcome :=
  if r.callsign = "" ∨ r.skill_name = "" ∨ r.status = "" then
    .skip (rowTag i ++ "missing callsign, skill_name, or status")
  else if !(validStatuses.contains (jsToUpper r.status)) then
    .skip (rowTag i ++ "invalid status \"" ++ r.status ++ "\"")
  else
    match findPilot pilots (jsTrim r.callsign) with
    | none => .skip (rowTag i ++ "pilot \"" ++ r.callsign ++ "\" not found")
    | some p =>
      if caller.role = "instructor" ∧ some p.wing_id ≠ caller.wing_id then
        .skip (rowTag i ++ "pilot \"" ++ r.callsign ++ "\" is not in your wing")
      else
        match findSkill skills (jsTrim r.skill_name) with
        | none => .skip (rowTag i ++ "skill \"" ++ r.skill_name ++ "\" not found")
        | some s =>
          if s.wing_id ≠ p.wing_id then
            .skip (rowTag i ++ "skill \"" ++ r.skill_name ++ "\" does not belong to pilot's wing")
          else if caller.role = "instructor" ∧ some s.wing_id ≠ caller.wing_id then
            .skip (rowTag i ++ "skill \"" ++ r.skill_name ++ "\" is not in your wing")
          else
            .ok p.id s.id (jsToUpper r.status)

/-- Result of a qualification endpoint, as the HTTP layer sees it. -/
inductive BulkResult where
  | badRequest (msg : String)
  | serverError
  | report (imported skipped : Nat) (errors : List String)
  deriving DecidableEq, Repr

/-- The `for` loop of the bulk import, run on the transaction's working copy
`work` of the qualification table. `failAt = some j` injects an unexpected
store error while processing record `j` (modelling e.g. the store becoming
unavailable), which surfaces as `none`; validation failures are recorded and
the loop continues. The loop never writes `pilots` or `skills`, so records
are validated against the same pilot/skill population throughout. -/
def bulkLoop (pilots : List Pilot) (skills : List Skill) (caller : Caller)
    (now : Nat) (failAt : Option Nat) :
    List ImportRecord → Nat → List Qualification → Nat → Nat → List String →
    Option (List Qualification × Nat × Nat × List String)
  | [], _, work, imp, skp, errs => some (work, imp, skp, errs)
  | r :: rest, i, work, imp, skp, errs =>
    if failAt = some i then none
    else
      match processRecord pilots skills caller i r with
      | .skip msg =>
        bulkLoop pilots skills caller now failAt rest (i + 1) work imp (skp + 1) (errs ++ [msg])
      | .ok pid sid st =>
        bulkLoop pilots skills caller now failAt rest (i + 1)
          (upsertQual work pid sid st caller.email now) (imp + 1) skp errs

/-- `POST /api/qualifications/bulk`. `records = none` models a body whose
`records` field is missing or not an array. On the error path (`none` from
the loop) the transaction is rolled back: the committed state is the input
`db`. On `COMMIT` the working qualification table is installed and the
report is returned with the error list truncated to 20 messages. -/
def bulkImport (db : DB) (caller : Caller) (records : Option (List ImportRecord))
    (now : Nat) (failAt : Option Nat) : BulkResult × DB :=
  match records with
  | none => (.badRequest "records array is required", db)
  | some recs =>
    if recs.length = 0 then (.badRequest "records array is required", db)
    else if recs.length > 1000 then (.badRequest "Maximum 1000 records per import", db)
    else
      match bulkLoop db.pilots db.skills caller now failAt recs 0 db.quals 0 0 [] with
      | none => (.serverError, db)
      | some (work, imp, skp, errs) =>
        (.report imp skp (errs.take 20), { db with quals := work })

/-- Result of `PUT /api/qualifications`, as the HTTP layer sees it. -/
inductive PutResult where
  | badRequest (msg : String)
  | notFound (msg : String)
  | forbidden (msg : String)
  | ok
  | serverError
  deriving DecidableEq, Repr

/-- The upsert statement of `PUT /api/qualifications`. Inserting a row whose
pilot or skill id references no existing row violates a foreign key and
surfaces as a 500; on conflict the existing row is updated instead. -/
def putUpsert (db : DB) (caller : Caller) (pid sid : Nat) (st : String)
    (now : Nat) : PutResult × DB :=
  if hasQual db.quals pid sid ∨
      ((db.pilots.any (fun p => p.id = pid)) ∧ (db.skills.any (fun s => s.id = sid))) then
    (.ok, { db with quals := upsertQual db.quals pid sid st caller.email now })
  else (.serverError, db)

/-- `PUT /api/qualifications` (lines 356-402): presence check, status check
(case-sensitive here, unlike the bulk import), then — for instructor callers
only — the pilot-wing and skill-wing checks, then the upsert. Admin callers
reach the upsert with no wing check at all. `none` arguments model missing
body fields. -/
def putQualification (db : DB) (caller : Caller) (pilot_id skill_id : Option Nat)
    (status : Option String) (now : Nat) : PutResult × DB :=
  match pilot_id, skill_id, status with
  | some pid, some sid, some st =>
    if st = "" then (.badRequest "pilot_id, skill_id, and status are required", db)
    else if !(validStatuses.contains st) then
      (.badRequest ("Status must be one of: NMQ, MQT, FMQ, IP"), db)
    else if caller.role = "instructor" then
      match db.pilots.find? (fun p => p.id = pid) with
      | none => (.notFound "Pilot not found", db)
      | some p =>
        if some p.wing_id ≠ caller.wing_id then
          (.forbidden "Instructors can only edit pilots in their own wing", db)
        else
          match db.skills.find? (fun s => s.id = sid) with
          | none => (.notFound "Skill not found", db)
          | some s =>
            if some s.wing_id ≠ caller.wing_id then
              (.forbidden "Skill does not belong to your wing", db)
            else putUpsert db caller pid sid st now
    else putUpsert db caller pid sid st now
  | _, _, _ => (.badRequest "pilot_id, skill_id, and status are required", db)

/-- The `SELECT` of the backfill statement: all `(pilot_id, skill_id)` pairs
from `pilots CROSS JOIN skills` sharing a wing for which `NOT EXISTS` a
qualification row, evaluated against the pre-insert table. -/
def missingPairs (db : DB) : List (Nat × Nat) :=
  db.pilots.flatMap (fun p =>
    (db.skills.filter (fun s => s.wing_id = p.wing_id ∧ ¬ hasQual db.quals p.id s.id)).map
      (fun s => (p.id, s.id)))

/-- One row of the backfill `INSERT ... ON CONFLICT (pilot_id, skill_id) DO
NOTHING`: skip the row if a conflicting row (including one inserted earlier in
the same statement) exists, else append it with status `NMQ` and count it. -/
def insertIgnoreStep (now : Nat) (who : String) (acc : List Qualification × Nat)
    (pr : Nat × Nat) : List Qualification × Nat :=
  if hasQual acc.1 pr.1 pr.2 then acc
  else
    (acc.1 ++ [{ pilot_id := pr.1, skill_id := pr.2, status := "NMQ",
                 last_updated := now, updated_by := who }], acc.2 + 1)

/-- `POST /api/qualifications/backfill`: insert an `NMQ` row for every
same-wing pilot/skill pair lacking one; returns `rowsInserted` (the
statement's row count) and the new store. -/
def backfill (db : DB) (caller : Caller) (now : Nat) : Nat × DB :=
  let r := (missingPairs db).foldl (insertIgnoreStep now caller.email) (db.quals, 0)
  (r.2, { db with quals := r.1 })

/-- The qualification rows with status `FMQ` or `IP` (`WHERE q.status IN
('FMQ', 'IP')`). -/
def fmqQuals (quals : List Qualification) : List Qualification :=
  quals.filter (fun q => q.status = "FMQ" ∨ q.status = "IP")

/-- The group keys passing `HAVING COUNT(*) >= 3` in the global
combat-readiness subquery of `GET /api/qualifications/stats`. -/
def readyIdsGlobal (db : DB) : List Nat :=
  ((fmqQuals db.quals).map (fun q => q.pilot_id)).dedup.filter
    (fun pid => 3 ≤ ((fmqQuals db.quals).filter (fun q => q.pilot_id = pid)).length)

/-- `combat_ready_pilots` of the stats endpoint without a `wing_id` filter. -/
def combatReadyPilotsGlobal (db : DB) : Nat :=
  (readyIdsGlobal db).length

/-- The join rows of the wing-filtered combat-readiness subquery:
`FROM qualifications q JOIN pilots p ON q.pilot_id = p.id WHERE q.status IN
('FMQ', 'IP') AND p.wing_id = $1`. -/
def wingFmqRows (db : DB) (w : Nat) : List (Qualification × Pilot) :=
  (fmqQuals db.quals).flatMap (fun q =>
    (db.pilots.filter (fun p => p.id = q.pilot_id ∧ p.wing_id = w)).map (fun p => (q, p)))

/-- The group keys passing `HAVING COUNT(*) >= 3` in the wing-filtered
combat-readiness subquery. -/
def readyIdsWing (db : DB) (w : Nat) : List Nat :=
  ((wingFmqRows db w).map (fun qp => qp.1.pilot_id)).dedup.filter
    (fun pid => 3 ≤ ((wingFmqRows db w).filter (fun qp => qp.1.pilot_id = pid)).length)

/-- `combat_ready_pilots` of the stats endpoint with a `wing_id` filter. -/
def combatReadyPilotsWing (db : DB) (w : Nat) : Nat :=
  (readyIdsWing db w).length

/-- The number of distinct skills on which pilot `pid` holds status `FMQ` or
`IP` — the spec's combat-readiness measure. -/
def distinctFmqSkillCount (db : DB) (pid : Nat) : Nat :=
  (((fmqQuals db.quals).filter (fun q => q.pilot_id = pid)).map (fun q => q.skill_id)).dedup.length

/-- The §3 invariant: every qualification row pairs a pilot and a skill of
the same wing. -/
def wingConsistent (db : DB) : Prop :=
  ∀ q ∈ db.quals, ∀ p ∈ db.pilots, p.id = q.pilot_id →
    ∀ s ∈ db.skills, s.id = q.skill_id → p.wing_id = s.wing_id

/-- Primary-key uniqueness of `pilots.id` and `skills.id`, plus the
`UNIQUE(pilot_id, skill_id)` constraint on `qualifications` — the schema
constraints every reachable store satisfies. -/
def schemaOk (db : DB) : Prop :=
  (db.pilots.map (fun p => p.id)).Nodup ∧
  (db.skills.map (fun s => s.id)).Nodup ∧
  (db.quals.map (fun q => (q.pilot_id, q.skill_id))).Nodup



/-- Is a row outcome a validation skip? -/
def isSkip : RowOutcome → Bool
  | .skip _ => true
  | .ok _ _ _ => false

/-- Number of records (indexed from `i`) the per-record validation skips. -/
def skipCount (P : List Pilot) (S : List Skill) (c : Caller)
    (recs : List ImportRecord) (i : Nat) : Nat :=
  ((recs.enumFrom i).filter (fun ir => isSkip (processRecord P S c ir.1 ir.2))).length

/-- Number of records (indexed from `i`) the per-record validation accepts. -/
def okCount (P : List Pilot) (S : List Skill) (c : Caller)
    (recs : List ImportRecord) (i : Nat) : Nat :=
  ((recs.enumFrom i).filter (fun ir => !isSkip (processRecord P S c ir.1 ir.2))).length



/-- Fixtures for witnesses/counterexamples. -/
def wAdmin : Caller := ⟨"admin@8vfw", "admin", none⟩

def wDB : DB :=
  { pilots := [⟨1, "VIPER", 1⟩, ⟨2, "GHOST", 1⟩],
    skills := [⟨5, "Startup", 1⟩],
    quals := [] }

instance wingConsistentDecidable (db : DB) : Decidable (wingConsistent db) := by
  unfold wingConsistent
  infer_instance

/-- Fixture: a pilot in wing 1 and a skill in wing 2. -/
def cxDB : DB := { pilots := [⟨1, "VIPER", 1⟩], skills := [⟨2, "Startup", 2⟩], quals := [] }

/-- Fixture: an instructor in wing 1 facing a wing-9 pilot/skill population. -/
def wInstructor : Caller := ⟨"ins@8vfw", "instructor", some 1⟩

def cx5DB : DB := { pilots := [⟨2, "GHOST", 9⟩], skills := [⟨3, "Startup", 9⟩], quals := [] }

instance schemaOkDecidable (db : DB) : Decidable (schemaOk db) := by
  unfold schemaOk
  infer_instance

/-- Fixture: wing 1 with one pilot holding three FMQ/IP skills and one
holding two. -/
def statsDB : DB :=
  { pilots := [⟨1, "APEX", 1⟩, ⟨2, "BULL", 1⟩],
    skills := [⟨5, "S", 1⟩, ⟨6, "T", 1⟩, ⟨7, "U", 1⟩],
    quals := [⟨1, 5, "FMQ", 0, "x"⟩, ⟨1, 6, "IP", 0, "x"⟩, ⟨1, 7, "FMQ", 0, "x"⟩,
              ⟨2, 5, "FMQ", 0, "x"⟩, ⟨2, 6, "FMQ", 0, "x"⟩] }

/-- A string padded with given leading and trailing character lists. -/
def padWS (l r : List Char) (s : String) : String := ⟨l ++ s.data ++ r⟩

/-- Two row outcomes agree as outcomes: same import/skip verdict and, for
imports, the same resolved pilot, skill and stored status (skip messages,
which embed the raw submitted text, may differ). -/
def sameOutcome : RowOutcome → RowOutcome → Prop
  | .ok a b st, .ok a' b' st' => a = a' ∧ b = b' ∧ st = st'
  | .skip _, .skip _ => True
  | _, _ => False

/-- The seven per-record validation checks of the bulk import, listed in the
order the route actually runs them, each as a passes-flag plus the error
message recorded when it is the first to fail (written from the claim's
"first failing check wins" reading, to be compared with `processRecord`). -/
def recordChecks (P : List Pilot) (S : List Skill) (c : Caller) (i : Nat)
    (r : ImportRecord) : List (Bool × String) :=
  let pOpt := findPilot P (jsTrim r.callsign)
  let sOpt := findSkill S (jsTrim r.skill_name)
  [ (decide ¬(r.callsign = "" ∨ r.skill_name = "" ∨ r.status = ""),
     rowTag i ++ "missing callsign, skill_name, or status"),
    (validStatuses.contains (jsToUpper r.status),
     rowTag i ++ "invalid status \"" ++ r.status ++ "\""),
    (pOpt.isSome, rowTag i ++ "pilot \"" ++ r.callsign ++ "\" not found"),
    ((match pOpt with
      | none => true
      | some p => decide ¬(c.role = "instructor" ∧ some p.wing_id ≠ c.wing_id)),
     rowTag i ++ "pilot \"" ++ r.callsign ++ "\" is not in your wing"),
    (sOpt.isSome, rowTag i ++ "skill \"" ++ r.skill_name ++ "\" not found"),
    ((match pOpt, sOpt with
      | some p, some s => decide (s.wing_id = p.wing_id)
      | _, _ => true),
     rowTag i ++ "skill \"" ++ r.skill_name ++ "\" does not belong to pilot's wing"),
    ((match sOpt with
      | none => true
      | some s => decide ¬(c.role = "instructor" ∧ some s.wing_id ≠ c.wing_id)),
     rowTag i ++ "skill \"" ++ r.skill_name ++ "\" is not in your wing") ]

/-- "Short-circuit on the first failing check": skip with the first failing
check's message, import otherwise. -/
def firstFailOutcome (P : List Pilot) (S : List Skill) (c : Caller) (i : Nat)
    (r : ImportRecord) : RowOutcome :=
  match (recordChecks P S c i r).find? (fun ck => !ck.1) with
  | some ck => .skip ck.2
  | none =>
    match findPilot P (jsTrim r.callsign), findSkill S (jsTrim r.skill_name) with
    | some p, some s => .ok p.id s.id (jsToUpper r.status)
    | _, _ => .skip (rowTag i ++ "unreachable")

lemma skipCount_cons (P S c r rest i) :
    skipCount P S c (r :: rest) i =
      (if isSkip (processRecord P S c i r) then 1 else 0) + skipCount P S c rest (i + 1) := by
  simp only [skipCount, List.enumFrom, List.filter]
  split <;> rename_i h <;> simp_all [Nat.add_comm]

lemma okCount_cons (P S c r rest i) :
    okCount P S c (r :: rest) i =
      (if isSkip (processRecord P S c i r) then 0 else 1) + okCount P S c rest (i + 1) := by
  simp only [okCount, List.enumFrom, List.filter]
  cases h : isSkip (processRecord P S c i r) <;> simp_all [Nat.add_comm]

lemma okCount_add_skipCount (P S c) :
    ∀ recs i, okCount P S c recs i + skipCount P S c recs i = recs.length := by
  intro recs
  induction recs with
  | nil => intro i; simp [okCount, skipCount, List.enumFrom]
  | cons r rest ih =>
    intro i
    rw [okCount_cons, skipCount_cons]
    have := ih (i + 1)
    cases h : isSkip (processRecord P S c i r) <;> simp [h, List.length_cons] <;> omega

/-- With no store failure, the bulk loop commits: it processes every record,
importing exactly the records validation accepts and recording one error
message per skipped record. -/
lemma bulkLoop_none_eq (P S c now) :
    ∀ (rest : List ImportRecord) (i : Nat) work imp skp errs,
    ∃ work' msgs,
      bulkLoop P S c now none rest i work imp skp errs =
        some (work', imp + okCount P S c rest i, skp + skipCount P S c rest i, errs ++ msgs) ∧
      msgs.length = skipCount P S c rest i := by
  intro rest
  induction rest with
  | nil =>
    intro i work imp skp errs
    exact ⟨work, [], by simp [bulkLoop, okCount, skipCount, List.enumFrom], by
      simp [skipCount, List.enumFrom]⟩
  | cons r rest ih =>
    intro i work imp skp errs
    cases hpr : processRecord P S c i r with
    | skip m =>
      obtain ⟨w', msgs, heq, hlen⟩ := ih (i + 1) work imp (skp + 1) (errs ++ [m])
      have h1 : okCount P S c (r :: rest) i = okCount P S c rest (i + 1) := by
        rw [okCount_cons]; simp [hpr, isSkip]
      have h2 : skipCount P S c (r :: rest) i = 1 + skipCount P S c rest (i + 1) := by
        rw [skipCount_cons]; simp [hpr, isSkip]
      refine ⟨w', m :: msgs, ?_, ?_⟩
      · rw [bulkLoop]
        simpa [hpr, h1, h2, ← Nat.add_assoc] using heq
      · rw [h2, List.length_cons, hlen]; omega
    | ok pid sid st =>
      obtain ⟨w', msgs, heq, hlen⟩ :=
        ih (i + 1) (upsertQual work pid sid st c.email now) (imp + 1) skp errs
      have h1 : okCount P S c (r :: rest) i = 1 + okCount P S c rest (i + 1) := by
        rw [okCount_cons]; simp [hpr, isSkip]
      have h2 : skipCount P S c (r :: rest) i = skipCount P S c rest (i + 1) := by
        rw [skipCount_cons]; simp [hpr, isSkip]
      refine ⟨w', msgs, ?_, ?_⟩
      · rw [bulkLoop]
        simpa [hpr, h1, h2, ← Nat.add_assoc] using heq
      · rw [h2, hlen]

/-- A store failure at any index the loop reaches aborts the whole loop. -/
lemma bulkLoop_fail (P S c now j) :
    ∀ (rest : List ImportRecord) (i : Nat) work imp skp errs,
    i ≤ j → j < i + rest.length →
    bulkLoop P S c now (some j) rest i work imp skp errs = none := by
  intro rest
  induction rest with
  | nil => intro i work imp skp errs h1 h2; simp at h2; omega
  | cons r rest ih =>
    intro i work imp skp errs h1 h2
    rw [bulkLoop]
    by_cases hij : j = i
    · simp [hij]
    · have hlt : i + 1 ≤ j := by omega
      have hup : j < (i + 1) + rest.length := by simp at h2; omega
      simp only [if_neg (by simp [Option.some_inj]; omega : ¬((some j : Option Nat) = some i))]
      cases hpr : processRecord P S c i r <;> simp [ih _ _ _ _ _ hlt hup]

/-- Whatever the failure pattern, a loop that returns a result processed every
record: the import and skip counters sum to their start plus the batch length. -/
lemma bulkLoop_some_sum (P S c now fa) :
    ∀ (rest : List ImportRecord) (i : Nat) work imp skp errs w' a b e,
    bulkLoop P S c now fa rest i work imp skp errs = some (w', a, b, e) →
    a + b = imp + skp + rest.length := by
  intro rest
  induction rest with
  | nil =>
    intro i work imp skp errs w' a b e h
    rw [bulkLoop] at h
    simp at h ⊢
    omega
  | cons r rest ih =>
    intro i work imp skp errs w' a b e h
    rw [bulkLoop] at h
    split at h
    · simp at h
    · split at h
      · have := ih _ _ _ _ _ _ _ _ _ h
        simp at this ⊢
        omega
      · have := ih _ _ _ _ _ _ _ _ _ h
        simp at this ⊢
        omega

/-- C4. -/
theorem bulk_report_counts (db : DB) (caller : Caller) (recs : List ImportRecord) (now : Nat)
    (h1 : 1 ≤ recs.length) (h2 : recs.length ≤ 1000) :
    ∃ errs db',
      bulkImport db caller (some recs) now none =
        (.report (recs.length - skipCount db.pilots db.skills caller recs 0)
                 (skipCount db.pilots db.skills caller recs 0) errs, db') ∧
      (recs.length - skipCount db.pilots db.skills caller recs 0) +
          skipCount db.pilots db.skills caller recs 0 = recs.length ∧
      errs.length = min (skipCount db.pilots db.skills caller recs 0) 20 := by
  have hK := okCount_add_skipCount db.pilots db.skills caller recs 0
  obtain ⟨w', msgs, heq, hlen⟩ :=
    bulkLoop_none_eq db.pilots db.skills caller now recs 0 db.quals 0 0 []
  have hok : okCount db.pilots db.skills caller recs 0 =
      recs.length - skipCount db.pilots db.skills caller recs 0 := by omega
  refine ⟨msgs.take 20, { db with quals := w' }, ?_, by omega, ?_⟩
  · rw [bulkImport]
    rw [if_neg (by omega), if_neg (by omega)]
    simp [heq, hok]
  · rw [List.length_take, hlen, Nat.min_comm]

theorem bulk_report_counts_witness :
    1 ≤ ([⟨"VIPER", "Startup", "FMQ"⟩, ⟨"NOONE", "Startup", "FMQ"⟩] : List ImportRecord).length ∧
    ∃ errs db',
      bulkImport wDB wAdmin
          (some [⟨"VIPER", "Startup", "FMQ"⟩, ⟨"NOONE", "Startup", "FMQ"⟩]) 7 none =
        (.report (2 - skipCount wDB.pilots wDB.skills wAdmin
                    [⟨"VIPER", "Startup", "FMQ"⟩, ⟨"NOONE", "Startup", "FMQ"⟩] 0)
                 (skipCount wDB.pilots wDB.skills wAdmin
                    [⟨"VIPER", "Startup", "FMQ"⟩, ⟨"NOONE", "Startup", "FMQ"⟩] 0) errs, db') ∧
      (2 - skipCount wDB.pilots wDB.skills wAdmin
            [⟨"VIPER", "Startup", "FMQ"⟩, ⟨"NOONE", "Startup", "FMQ"⟩] 0) +
          skipCount wDB.pilots wDB.skills wAdmin
            [⟨"VIPER", "Startup", "FMQ"⟩, ⟨"NOONE", "Startup", "FMQ"⟩] 0 = 2 ∧
      errs.length = min (skipCount wDB.pilots wDB.skills wAdmin
          [⟨"VIPER", "Startup", "FMQ"⟩, ⟨"NOONE", "Startup", "FMQ"⟩] 0) 20 :=
  ⟨by decide, bulk_report_counts wDB wAdmin _ 7 (by decide) (by decide)⟩

/-- C3. -/
theorem bulk_transactional (db : DB) (caller : Caller) (recs : List ImportRecord)
    (now k : Nat) (hk : k < recs.length) (h2 : recs.length ≤ 1000) :
    bulkImport db caller (some recs) now (some k) = (.serverError, db) ∧
    ∃ imp skp errs db',
      bulkImport db caller (some recs) now none = (.report imp skp errs, db') := by
  constructor
  · rw [bulkImport]
    rw [if_neg (by omega), if_neg (by omega)]
    rw [bulkLoop_fail db.pilots db.skills caller now k recs 0 db.quals 0 0 []
      (by omega) (by omega)]
  · obtain ⟨w', msgs, heq, _⟩ :=
      bulkLoop_none_eq db.pilots db.skills caller now recs 0 db.quals 0 0 []
    refine ⟨okCount db.pilots db.skills caller recs 0,
            skipCount db.pilots db.skills caller recs 0,
            msgs.take 20, { db with quals := w' }, ?_⟩
    rw [bulkImport, if_neg (by omega), if_neg (by omega)]
    simp [heq]

theorem bulk_transactional_witness :
    (0 < ([⟨"VIPER", "Startup", "FMQ"⟩] : List ImportRecord).length) ∧
    bulkImport wDB wAdmin (some [⟨"VIPER", "Startup", "FMQ"⟩]) 7 (some 0) =
      (.serverError, wDB) ∧
    ∃ imp skp errs db',
      bulkImport wDB wAdmin (some [⟨"VIPER", "Startup", "FMQ"⟩]) 7 none =
        (.report imp skp errs, db') :=
  ⟨by decide, bulk_transactional wDB wAdmin _ 7 0 (by decide) (by decide)⟩

/-- C9. -/
theorem bulk_rejects_empty (db : DB) (caller : Caller) (now : Nat) (fa : Option Nat) :
    bulkImport db caller none now fa = (.badRequest "records array is required", db) ∧
    bulkImport db caller (some []) now fa = (.badRequest "records array is required", db) ∧
    (∀ recs imp skp errs db',
      bulkImport db caller (some recs) now fa = (.report imp skp errs, db') →
      1 ≤ imp + skp) := by
  refine ⟨rfl, rfl, ?_⟩
  intro recs imp skp errs db' h
  rw [bulkImport] at h
  by_cases h0 : recs.length = 0
  · rw [if_pos h0] at h; exact absurd h (by simp)
  · rw [if_neg h0] at h
    by_cases h1 : recs.length > 1000
    · rw [if_pos h1] at h; exact absurd h (by simp)
    · rw [if_neg h1] at h
      cases hl : bulkLoop db.pilots db.skills caller now fa recs 0 db.quals 0 0 [] with
      | none => rw [hl] at h; simp at h
      | some res =>
        obtain ⟨w', a, b, e⟩ := res
        rw [hl] at h
        have hsum := bulkLoop_some_sum db.pilots db.skills caller now fa recs 0
          db.quals 0 0 [] w' a b e hl
        simp [Prod.ext_iff] at h
        omega

theorem bulk_rejects_empty_witness :
    bulkImport wDB wAdmin none 7 none = (.badRequest "records array is required", wDB) ∧
    1 ≤ 1 + 0 :=
  ⟨(bulk_rejects_empty wDB wAdmin 7 none).1,
   (bulk_rejects_empty wDB wAdmin 7 none).2.2 [⟨"VIPER", "Startup", "FMQ"⟩] 1 0 []
     { wDB with quals := [⟨1, 5, "FMQ", 7, "admin@8vfw"⟩] } (by decide)⟩

lemma hasQual_iff (qs : List Qualification) (pid sid : Nat) :
    hasQual qs pid sid = true ↔ ∃ q ∈ qs, q.pilot_id = pid ∧ q.skill_id = sid := by
  simp [hasQual, List.any_eq_true]

/-- The backfill insert only appends rows. -/
lemma backfillFold_mem (now : Nat) (who : String) :
    ∀ (prs : List (Nat × Nat)) (acc : List Qualification × Nat) (q : Qualification),
    q ∈ acc.1 → q ∈ (prs.foldl (insertIgnoreStep now who) acc).1 := by
  intro prs
  induction prs with
  | nil => intro acc q h; simpa using h
  | cons pr rest ih =>
    intro acc q h
    rw [List.foldl_cons]
    apply ih
    rw [insertIgnoreStep]
    split
    · exact h
    · exact List.mem_append_left _ h

/-- Every pair handed to the backfill insert has a row afterwards. -/
lemma backfillFold_covers (now : Nat) (who : String) :
    ∀ (prs : List (Nat × Nat)) (acc : List Qualification × Nat) (pr : Nat × Nat),
    pr ∈ prs →
    ∃ q ∈ (prs.foldl (insertIgnoreStep now who) acc).1,
      q.pilot_id = pr.1 ∧ q.skill_id = pr.2 := by
  intro prs
  induction prs with
  | nil => intro acc pr h; simp at h
  | cons pr0 rest ih =>
    intro acc pr h
    rw [List.foldl_cons]
    rcases List.mem_cons.mp h with heq | hrest
    · subst heq
      rw [insertIgnoreStep]
      split
      · rename_i hhas
        obtain ⟨q, hq, hids⟩ := (hasQual_iff _ _ _).mp hhas
        exact ⟨q, backfillFold_mem now who rest acc q hq, hids⟩
      · refine ⟨⟨pr.1, pr.2, "NMQ", now, who⟩, ?_, rfl, rfl⟩
        apply backfillFold_mem
        simp
    · exact ih _ pr hrest

lemma mem_missingPairs (db : DB) (a b : Nat) :
    (a, b) ∈ missingPairs db ↔
      ∃ p ∈ db.pilots, ∃ s ∈ db.skills,
        p.id = a ∧ s.id = b ∧ s.wing_id = p.wing_id ∧ ¬ hasQual db.quals p.id s.id := by
  simp only [missingPairs, List.mem_flatMap, List.mem_map, List.mem_filter]
  constructor
  · rintro ⟨p, hp, s, ⟨hs, hcond⟩, heq⟩
    simp only [Prod.mk.injEq] at heq
    simp only [decide_eq_true_eq] at hcond
    exact ⟨p, hp, s, hs, heq.1, heq.2, hcond.1, by simpa using hcond.2⟩
  · rintro ⟨p, hp, s, hs, ha, hb, hw, hq⟩
    exact ⟨p, hp, s, ⟨hs, by simp [hw, hq]⟩, by simp [ha, hb]⟩

/-- C8: backfill is idempotent. -/
theorem backfill_idempotent (db : DB) (c c' : Caller) (now now' : Nat) :
    backfill (backfill db c now).2 c' now' = (0, (backfill db c now).2) := by
  set db1 := (backfill db c now).2 with hdb1
  have hpilots : db1.pilots = db.pilots := rfl
  have hskills : db1.skills = db.skills := rfl
  have hcover : ∀ p ∈ db.pilots, ∀ s ∈ db.skills, s.wing_id = p.wing_id →
      hasQual db1.quals p.id s.id = true := by
    intro p hp s hs hw
    rw [hasQual_iff]
    by_cases hhad : hasQual db.quals p.id s.id = true
    · obtain ⟨q, hq, hids⟩ := (hasQual_iff _ _ _).mp hhad
      exact ⟨q, backfillFold_mem now c.email (missingPairs db) (db.quals, 0) q hq, hids⟩
    · have hmem : (p.id, s.id) ∈ missingPairs db :=
        (mem_missingPairs db p.id s.id).mpr ⟨p, hp, s, hs, rfl, rfl, hw, by simpa using hhad⟩
      exact backfillFold_covers now c.email (missingPairs db) (db.quals, 0) _ hmem
  have hmp : missingPairs db1 = [] := by
    rw [missingPairs]
    rw [List.flatMap_eq_nil_iff]
    intro p hp
    rw [List.map_eq_nil_iff, List.filter_eq_nil_iff]
    intro s hs
    rw [hpilots] at hp
    rw [hskills] at hs
    simp only [decide_eq_true_eq, not_and]
    intro hw
    simp [hcover p hp s hs hw]
  rw [backfill, hmp]
  simp

lemma findPilot_mem {P : List Pilot} {pat : String} {p : Pilot}
    (h : findPilot P pat = some p) : p ∈ P := by
  rw [findPilot] at h
  exact (List.mem_filter.mp (List.mem_of_mem_head? (by rw [h]; rfl))).1

lemma findSkill_mem {S : List Skill} {pat : String} {s : Skill}
    (h : findSkill S pat = some s) : s ∈ S := by
  rw [findSkill] at h
  exact (List.mem_filter.mp (List.mem_of_mem_head? (by rw [h]; rfl))).1

/-- Appending a row whose ids resolve to a same-wing pilot/skill pair keeps the
wing invariant (given primary-key uniqueness of pilot and skill ids). -/
lemma wingConsistent_snoc {P : List Pilot} {S : List Skill} {quals : List Qualification}
    (hp : (P.map (fun p => p.id)).Nodup) (hs : (S.map (fun s => s.id)).Nodup)
    (hw : wingConsistent ⟨P, S, quals⟩)
    {pid sid : Nat} {st who : String} {now : Nat}
    (p0 : Pilot) (hp0 : p0 ∈ P) (s0 : Skill) (hs0 : s0 ∈ S)
    (hid : p0.id = pid) (hsid : s0.id = sid) (hww : s0.wing_id = p0.wing_id) :
    wingConsistent ⟨P, S, quals ++ [⟨pid, sid, st, now, who⟩]⟩ := by
  intro q hq p hpmem hpid s hsmem hsid'
  rcases List.mem_append.mp hq with hold | hnew
  · exact hw q hold p hpmem hpid s hsmem hsid'
  · have hq' : q = ⟨pid, sid, st, now, who⟩ := by simpa using hnew
    subst hq'
    have hpp : p = p0 :=
      List.inj_on_of_nodup_map hp hpmem hp0 (by simp at hpid ⊢; omega)
    have hss : s = s0 :=
      List.inj_on_of_nodup_map hs hsmem hs0 (by simp at hsid' ⊢; omega)
    rw [hpp, hss, hww]

/-- The upsert keeps the wing invariant when the new pair resolves to a
same-wing pilot/skill pair. -/
lemma wingConsistent_upsert {P : List Pilot} {S : List Skill} {quals : List Qualification}
    (hp : (P.map (fun p => p.id)).Nodup) (hs : (S.map (fun s => s.id)).Nodup)
    (hw : wingConsistent ⟨P, S, quals⟩)
    {pid sid : Nat} {st who : String} {now : Nat}
    (p0 : Pilot) (hp0 : p0 ∈ P) (s0 : Skill) (hs0 : s0 ∈ S)
    (hid : p0.id = pid) (hsid : s0.id = sid) (hww : s0.wing_id = p0.wing_id) :
    wingConsistent ⟨P, S, upsertQual quals pid sid st who now⟩ := by
  rw [upsertQual]
  split
  · intro q hq p hpmem hpid s hsmem hsid'
    obtain ⟨q0, hq0, hfq⟩ := List.mem_map.mp hq
    have hids : q.pilot_id = q0.pilot_id ∧ q.skill_id = q0.skill_id := by
      subst hfq; split <;> simp
    exact hw q0 hq0 p hpmem (hids.1 ▸ hpid) s hsmem (hids.2 ▸ hsid')
  · exact wingConsistent_snoc hp hs hw p0 hp0 s0 hs0 hid hsid hww

/-- Every accepted bulk record resolved a pilot and a skill of the same wing
(the `skillWingId !== pilotWingId` check). -/
lemma processRecord_ok_wings {P S c i r pid sid st}
    (h : processRecord P S c i r = .ok pid sid st) :
    ∃ p0 ∈ P, ∃ s0 ∈ S, p0.id = pid ∧ s0.id = sid ∧ s0.wing_id = p0.wing_id := by
  rw [processRecord] at h
  split at h
  · simp at h
  · split at h
    · simp at h
    · split at h
      · simp at h
      · rename_i p hfp
        split at h
        · simp at h
        · split at h
          · simp at h
          · rename_i s hfs
            split at h
            · simp at h
            · split at h
              · simp at h
              · rename_i hww _
                simp only [RowOutcome.ok.injEq] at h
                exact ⟨p, findPilot_mem hfp, s, findSkill_mem hfs, h.1,
                  h.2.1, by simpa using hww⟩

lemma bulkLoop_preserves {P S c now fa}
    (hp : (P.map (fun p => p.id)).Nodup) (hs : (S.map (fun s => s.id)).Nodup) :
    ∀ (rest : List ImportRecord) (i : Nat) work imp skp errs w' a b e,
    wingConsistent ⟨P, S, work⟩ →
    bulkLoop P S c now fa rest i work imp skp errs = some (w', a, b, e) →
    wingConsistent ⟨P, S, w'⟩ := by
  intro rest
  induction rest with
  | nil =>
    intro i work imp skp errs w' a b e hw h
    rw [bulkLoop] at h
    simp at h
    exact h.1 ▸ hw
  | cons r rest ih =>
    intro i work imp skp errs w' a b e hw h
    rw [bulkLoop] at h
    split at h
    · simp at h
    · split at h
      · exact ih _ _ _ _ _ _ _ _ _ hw h
      · rename_i pid sid st hpr
        obtain ⟨p0, hp0, s0, hs0, hid, hsid, hww⟩ := processRecord_ok_wings hpr
        exact ih _ _ _ _ _ _ _ _ _
          (wingConsistent_upsert hp hs hw p0 hp0 s0 hs0 hid hsid hww) h

lemma backfillFold_preserves {P : List Pilot} {S : List Skill} {now : Nat} {who : String}
    (hp : (P.map (fun p => p.id)).Nodup) (hs : (S.map (fun s => s.id)).Nodup) :
    ∀ (prs : List (Nat × Nat)) (acc : List Qualification × Nat),
    wingConsistent ⟨P, S, acc.1⟩ →
    (∀ pr ∈ prs, ∃ p0 ∈ P, ∃ s0 ∈ S, p0.id = pr.1 ∧ s0.id = pr.2 ∧
      s0.wing_id = p0.wing_id) →
    wingConsistent ⟨P, S, (prs.foldl (insertIgnoreStep now who) acc).1⟩ := by
  intro prs
  induction prs with
  | nil => intro acc hw _; simpa using hw
  | cons pr rest ih =>
    intro acc hw hgood
    rw [List.foldl_cons, insertIgnoreStep]
    split
    · exact ih _ hw (fun x hx => hgood x (List.mem_cons_of_mem _ hx))
    · obtain ⟨p0, hp0, s0, hs0, hid, hsid, hww⟩ := hgood pr (List.mem_cons_self _ _)
      exact ih _ (wingConsistent_snoc hp hs hw p0 hp0 s0 hs0 hid hsid hww)
        (fun x hx => hgood x (List.mem_cons_of_mem _ hx))

/-- C1 counterexample: an admin single-record upsert pairs a wing-1 pilot with
a wing-2 skill — the request succeeds and the invariant is broken. -/
theorem put_crosswing_counterexample :
    wingConsistent cxDB ∧
    (putQualification cxDB wAdmin (some 1) (some 2) (some "FMQ") 5).1 = .ok ∧
    ¬ wingConsistent (putQualification cxDB wAdmin (some 1) (some 2) (some "FMQ") 5).2 := by
  refine ⟨by decide, rfl, by decide⟩

/-- C1 amended: the bulk import (any role) and the backfill preserve the
same-wing invariant, and so does the single-record upsert for instructor
callers; only the admin single-record upsert can break it. -/
theorem wing_invariant_preserved (db : DB)
    (hp : (db.pilots.map (fun p => p.id)).Nodup)
    (hs : (db.skills.map (fun s => s.id)).Nodup)
    (hw : wingConsistent db) :
    (∀ c recs now fa, wingConsistent (bulkImport db c recs now fa).2) ∧
    (∀ c now, wingConsistent (backfill db c now).2) ∧
    (∀ c pid sid st now, c.role = "instructor" →
      wingConsistent (putQualification db c pid sid st now).2) := by
  have hdb : wingConsistent ⟨db.pilots, db.skills, db.quals⟩ := hw
  refine ⟨?_, ?_, ?_⟩
  · intro c recs now fa
    cases recs with
    | none => exact hw
    | some l =>
      simp only [bulkImport]
      by_cases h0 : l.length = 0
      · rw [if_pos h0]; exact hw
      · rw [if_neg h0]
        by_cases h1 : l.length > 1000
        · rw [if_pos h1]; exact hw
        · rw [if_neg h1]
          cases hl : bulkLoop db.pilots db.skills c now fa l 0 db.quals 0 0 [] with
          | none => exact hw
          | some res =>
            obtain ⟨w', a, b, e⟩ := res
            exact bulkLoop_preserves hp hs l 0 db.quals 0 0 [] w' a b e hdb hl
  · intro c now
    rw [backfill]
    refine backfillFold_preserves hp hs (missingPairs db) (db.quals, 0) hdb ?_
    intro pr hpr
    obtain ⟨p, hpm, s, hsm, ha, hb, hww, _⟩ :=
      (mem_missingPairs db pr.1 pr.2).mp (by simpa using hpr)
    exact ⟨p, hpm, s, hsm, ha, hb, hww⟩
  · intro c pid sid st now hrole
    cases pid with
    | none => exact hw
    | some pv =>
      cases sid with
      | none => exact hw
      | some sv =>
        cases st with
        | none => exact hw
        | some stv =>
          simp only [putQualification]
          by_cases he : stv = ""
          · rw [if_pos he]; exact hw
          · rw [if_neg he]
            by_cases hv : !(validStatuses.contains stv)
            · simp only [hv, if_true]; exact hw
            · rw [if_neg (by simpa using hv), if_pos hrole]
              cases hfp : db.pilots.find? (fun p => p.id = pv) with
              | none => exact hw
              | some p =>
                dsimp only
                by_cases hw1 : some p.wing_id ≠ c.wing_id
                · rw [if_pos hw1]; exact hw
                · rw [if_neg hw1]
                  cases hfs : db.skills.find? (fun s => s.id = sv) with
                  | none => exact hw
                  | some s =>
                    dsimp only
                    by_cases hw2 : some s.wing_id ≠ c.wing_id
                    · rw [if_pos hw2]; exact hw
                    · rw [if_neg hw2]
                      rw [putUpsert]
                      split
                      · have hpmem := List.mem_of_find?_eq_some hfp
                        have hsmem := List.mem_of_find?_eq_some hfs
                        have hpid : p.id = pv := by
                          have := List.find?_some hfp; simpa using this
                        have hsid : s.id = sv := by
                          have := List.find?_some hfs; simpa using this
                        have hww : s.wing_id = p.wing_id := by
                          simp at hw1 hw2
                          exact Option.some_injective _ (hw2.trans hw1.symm)
                        exact wingConsistent_upsert hp hs hdb p hpmem s hsmem hpid hsid
                          (by rw [hww])
                      · exact hw

theorem wing_invariant_preserved_witness :
    wingConsistent wDB ∧
    wingConsistent (backfill wDB wAdmin 3).2 ∧
    wingConsistent (bulkImport wDB wAdmin (some [⟨"VIPER", "Startup", "FMQ"⟩]) 7 none).2 :=
  ⟨by decide,
   (wing_invariant_preserved wDB (by decide) (by decide) (by decide)).2.1 wAdmin 3,
   (wing_invariant_preserved wDB (by decide) (by decide) (by decide)).1 wAdmin
     (some [⟨"VIPER", "Startup", "FMQ"⟩]) 7 none⟩

lemma dropWhile_ws_append {w l : List Char} (hw : ∀ ch ∈ w, ch.isWhitespace) :
    (w ++ l).dropWhile Char.isWhitespace = l.dropWhile Char.isWhitespace := by
  induction w with
  | nil => simp
  | cons ch t ih =>
    rw [List.cons_append, List.dropWhile_cons]
    simp only [hw ch (by simp), if_true]
    exact ih (fun x hx => hw x (by simp [hx]))

lemma dropWhile_ws_all {w : List Char} (hw : ∀ ch ∈ w, ch.isWhitespace) :
    w.dropWhile Char.isWhitespace = [] := by
  have := dropWhile_ws_append (l := []) hw
  simpa using this

lemma trim_core {w2 : List Char} (hw2 : ∀ ch ∈ w2, ch.isWhitespace) :
    ∀ l : List Char,
    (((l ++ w2).dropWhile Char.isWhitespace).reverse.dropWhile Char.isWhitespace).reverse =
      ((l.dropWhile Char.isWhitespace).reverse.dropWhile Char.isWhitespace).reverse := by
  intro l
  induction l with
  | nil =>
    simp [dropWhile_ws_all hw2]
  | cons ch t ih =>
    by_cases hc : ch.isWhitespace
    · rw [List.cons_append, List.dropWhile_cons, List.dropWhile_cons]
      simp only [hc, if_true]
      exact ih
    · rw [List.cons_append, List.dropWhile_cons, List.dropWhile_cons]
      simp only [hc, Bool.false_eq_true, if_false]
      have hrev : (ch :: (t ++ w2)).reverse = w2.reverse ++ (ch :: t).reverse := by
        simp
      rw [hrev, dropWhile_ws_append (fun x hx => hw2 x (by simpa using hx))]

lemma jsTrim_pad {w1 w2 : List Char} {s : String}
    (h1 : ∀ ch ∈ w1, ch.isWhitespace) (h2 : ∀ ch ∈ w2, ch.isWhitespace) :
    jsTrim (padWS w1 w2 s) = jsTrim s := by
  unfold jsTrim padWS
  have : (w1 ++ s.data ++ w2) = w1 ++ (s.data ++ w2) := by simp
  rw [this, dropWhile_ws_append h1]
  exact congrArg String.mk (trim_core h2 s.data)

lemma padWS_ne_empty {w1 w2 : List Char} {s : String} (h : s ≠ "") :
    padWS w1 w2 s ≠ "" := by
  intro hx
  apply h
  have hdata : (padWS w1 w2 s).data = [] := by rw [hx]
  simp only [padWS, List.append_eq_nil] at hdata
  obtain ⟨d⟩ := s
  simp_all

/-- C5 counterexample: an instructor record whose callsign resolves to an
out-of-wing pilot but whose status is invalid is skipped with the
invalid-status message, not the wing-scope message. -/
theorem bulk_wing_scope_counterexample :
    wInstructor.role = "instructor" ∧
    findPilot cx5DB.pilots (jsTrim "GHOST") = some ⟨2, "GHOST", 9⟩ ∧
    some (9 : Nat) ≠ wInstructor.wing_id ∧
    processRecord cx5DB.pilots cx5DB.skills wInstructor 0 ⟨"GHOST", "Startup", "bogus"⟩ =
      .skip "Row 1: invalid status \"bogus\"" ∧
    ("Row 1: invalid status \"bogus\"" : String) ≠
      "Row 1: pilot \"GHOST\" is not in your wing" := by decide

/-- C5 amended: an instructor record resolving to an out-of-wing pilot is
never imported; when it passes the presence and status checks it is skipped
with the wing-scope message, and otherwise with the earlier check's message. -/
theorem bulk_wing_scope (P : List Pilot) (S : List Skill) (c : Caller) (i : Nat)
    (r : ImportRecord) (p : Pilot)
    (hrole : c.role = "instructor")
    (hfind : findPilot P (jsTrim r.callsign) = some p)
    (hwing : some p.wing_id ≠ c.wing_id) :
    (∀ pid sid st, processRecord P S c i r ≠ .ok pid sid st) ∧
    (¬(r.callsign = "" ∨ r.skill_name = "" ∨ r.status = "") →
      validStatuses.contains (jsToUpper r.status) = true →
      processRecord P S c i r =
        .skip (rowTag i ++ "pilot \"" ++ r.callsign ++ "\" is not in your wing")) := by
  have hcond : c.role = "instructor" ∧ some p.wing_id ≠ c.wing_id := ⟨hrole, hwing⟩
  constructor
  · intro pid sid st hok
    rw [processRecord] at hok
    split at hok
    · simp at hok
    · split at hok
      · simp at hok
      · rw [hfind] at hok
        dsimp only at hok
        rw [if_pos hcond] at hok
        simp at hok
  · intro hpres hstat
    have hv' : ¬((!(validStatuses.contains (jsToUpper r.status))) = true) := by
      rw [hstat]; simp
    rw [processRecord, if_neg hpres, if_neg hv']
    rw [hfind]
    dsimp only
    rw [if_pos hcond]

theorem bulk_wing_scope_witness :
    wInstructor.role = "instructor" ∧
    processRecord cx5DB.pilots cx5DB.skills wInstructor 0 ⟨"GHOST", "Startup", "FMQ"⟩ =
      .skip (rowTag 0 ++ "pilot \"" ++ "GHOST" ++ "\" is not in your wing") :=
  ⟨rfl, (bulk_wing_scope cx5DB.pilots cx5DB.skills wInstructor 0 ⟨"GHOST", "Startup", "FMQ"⟩
    ⟨2, "GHOST", 9⟩ rfl (by decide) (by decide)).2 (by decide) (by decide)⟩

/-- C6 counterexample: the status field is not trimmed — padding a valid
status with a leading space flips the record from imported to skipped. -/
theorem bulk_status_pad_counterexample :
    processRecord wDB.pilots wDB.skills wAdmin 0 ⟨"VIPER", "Startup", "FMQ"⟩ =
      .ok 1 5 "FMQ" ∧
    processRecord wDB.pilots wDB.skills wAdmin 0 ⟨"VIPER", "Startup", " FMQ"⟩ =
      .skip "Row 1: invalid status \" FMQ\"" := by decide

/-- C6 amended: the reconciler tolerates leading/trailing whitespace in the
callsign and skill_name fields (for records where these are non-empty) — the
outcome (import/skip verdict, resolved pilot/skill, stored status) is
unchanged; the status field is not trimmed (see the counterexample). -/
theorem bulk_trims_callsign_skill (P : List Pilot) (S : List Skill) (c : Caller)
    (i : Nat) (r : ImportRecord) (w1 w2 w3 w4 : List Char)
    (h1 : ∀ ch ∈ w1, ch.isWhitespace) (h2 : ∀ ch ∈ w2, ch.isWhitespace)
    (h3 : ∀ ch ∈ w3, ch.isWhitespace) (h4 : ∀ ch ∈ w4, ch.isWhitespace)
    (hc : r.callsign ≠ "") (hsn : r.skill_name ≠ "") :
    sameOutcome
      (processRecord P S c i
        { callsign := padWS w1 w2 r.callsign,
          skill_name := padWS w3 w4 r.skill_name, status := r.status })
      (processRecord P S c i r) := by
  have e1 : jsTrim (padWS w1 w2 r.callsign) = jsTrim r.callsign := jsTrim_pad h1 h2
  have e2 : jsTrim (padWS w3 w4 r.skill_name) = jsTrim r.skill_name := jsTrim_pad h3 h4
  have n1 : padWS w1 w2 r.callsign ≠ "" := padWS_ne_empty hc
  have n2 : padWS w3 w4 r.skill_name ≠ "" := padWS_ne_empty hsn
  rw [processRecord, processRecord]
  dsimp only
  by_cases hst : r.status = ""
  · have hp1 : (padWS w1 w2 r.callsign = "" ∨ padWS w3 w4 r.skill_name = "" ∨
        r.status = "") := Or.inr (Or.inr hst)
    have hp2 : (r.callsign = "" ∨ r.skill_name = "" ∨ r.status = "") :=
      Or.inr (Or.inr hst)
    rw [if_pos hp1, if_pos hp2]
    trivial
  · have hp1 : ¬(padWS w1 w2 r.callsign = "" ∨ padWS w3 w4 r.skill_name = "" ∨
        r.status = "") := by simp [n1, n2, hst]
    have hp2 : ¬(r.callsign = "" ∨ r.skill_name = "" ∨ r.status = "") := by
      simp [hc, hsn, hst]
    rw [if_neg hp1, if_neg hp2]
    by_cases hv : (!(validStatuses.contains (jsToUpper r.status))) = true
    · simp only [if_pos hv]
      trivial
    · simp only [if_neg hv]
      rw [e1, e2]
      cases findPilot P (jsTrim r.callsign) with
      | none => trivial
      | some p =>
        dsimp only
        by_cases hw1 : c.role = "instructor" ∧ some p.wing_id ≠ c.wing_id
        · simp only [if_pos hw1]
          trivial
        · simp only [if_neg hw1]
          cases findSkill S (jsTrim r.skill_name) with
          | none => trivial
          | some s =>
            dsimp only
            by_cases hw2 : s.wing_id ≠ p.wing_id
            · simp only [if_pos hw2]
              trivial
            · simp only [if_neg hw2]
              by_cases hw3 : c.role = "instructor" ∧ some s.wing_id ≠ c.wing_id
              · simp only [if_pos hw3]
                trivial
              · simp only [if_neg hw3]
                exact ⟨rfl, rfl, rfl⟩

theorem bulk_trims_callsign_skill_witness :
    ("VIPER" : String) ≠ "" ∧
    sameOutcome
      (processRecord wDB.pilots wDB.skills wAdmin 0
        { callsign := padWS [' '] [' '] "VIPER", skill_name := padWS [] [' '] "Startup",
          status := "FMQ" })
      (processRecord wDB.pilots wDB.skills wAdmin 0 ⟨"VIPER", "Startup", "FMQ"⟩) :=
  ⟨by decide,
   bulk_trims_callsign_skill wDB.pilots wDB.skills wAdmin 0 ⟨"VIPER", "Startup", "FMQ"⟩
     [' '] [' '] [] [' '] (by decide) (by decide) (by decide) (by decide)
     (by decide) (by decide)⟩

/-- C10: the bulk lookups are SQL `ILIKE` pattern matches on the trimmed
submitted text, not case-insensitive equality: callsign `%` matches every
pilot and `start_p` matches the skill `Startup`; with several matching rows
the first returned row is used and the import succeeds with no ambiguity
error, although the matched names are not case-insensitively equal to the
submitted text. -/
theorem bulk_ilike_wildcard :
    (ilike "VIPER" "%" = true ∧ ilike "GHOST" "%" = true) ∧
    findPilot wDB.pilots (jsTrim "%") = some ⟨1, "VIPER", 1⟩ ∧
    findSkill wDB.skills (jsTrim "start_p") = some ⟨5, "Startup", 1⟩ ∧
    bulkImport wDB wAdmin (some [⟨"%", "start_p", "fmq"⟩]) 7 none =
      (.report 1 0 [], { wDB with quals := [⟨1, 5, "FMQ", 7, "admin@8vfw"⟩] }) ∧
    jsToUpper "VIPER" ≠ jsToUpper "%" ∧ jsToUpper "Startup" ≠ jsToUpper "start_p" := by
  decide

/-- C2 counterexample: a record with an unknown skill and a pilot outside the
instructor caller's wing is reported with the wing-scope error, because the
route runs the instructor pilot-wing check before the skill lookup. -/
theorem bulk_order_counterexample :
    findSkill cx5DB.skills (jsTrim "Nope") = none ∧
    findPilot cx5DB.pilots (jsTrim "GHOST") = some ⟨2, "GHOST", 9⟩ ∧
    wInstructor.role = "instructor" ∧ some (9 : Nat) ≠ wInstructor.wing_id ∧
    processRecord cx5DB.pilots cx5DB.skills wInstructor 0 ⟨"GHOST", "Nope", "FMQ"⟩ =
      .skip "Row 1: pilot \"GHOST\" is not in your wing" ∧
    ("Row 1: pilot \"GHOST\" is not in your wing" : String) ≠
      "Row 1: skill \"Nope\" not found" := by decide

/-- C2 amended: per-record validation short-circuits on the first failing
check, but in the order (1) presence, (2) status, (3) pilot lookup, (4)
instructor pilot-wing scope, (5) skill lookup, (6) skill wing equals pilot
wing, (7) instructor skill-wing scope — the instructor pilot-wing check runs
before the skill lookup, so the record of the counterexample gets the
wing-scope error. The recorded message is always that of the first failing
check in this order. -/
theorem bulk_validation_order (P : List Pilot) (S : List Skill) (c : Caller)
    (i : Nat) (r : ImportRecord) :
    processRecord P S c i r = firstFailOutcome P S c i r := by
  rw [processRecord, firstFailOutcome, recordChecks]
  by_cases h1 : (r.callsign = "" ∨ r.skill_name = "" ∨ r.status = "")
  · simp [h1, List.find?]
  · by_cases h2 : jsToUpper r.status ∈ validStatuses
    · cases hp : findPilot P (jsTrim r.callsign) with
      | none => simp [h1, h2, hp, List.find?]
      | some p =>
        by_cases h4 : (c.role = "instructor" ∧ some p.wing_id ≠ c.wing_id)
        · simp [h1, h2, hp, h4, List.find?]
        · cases hs : findSkill S (jsTrim r.skill_name) with
          | none => simp [h1, h2, hp, h4, hs, List.find?]
          | some s =>
            by_cases h6 : s.wing_id ≠ p.wing_id
            · simp [h1, h2, hp, h4, hs, h6, List.find?]
            · have h6' : s.wing_id = p.wing_id := not_not.mp h6
              by_cases h7 : (c.role = "instructor" ∧ some s.wing_id ≠ c.wing_id)
              · have hpw : some p.wing_id = c.wing_id := by
                  by_contra hne
                  exact h4 ⟨h7.1, hne⟩
                simp [h1, h2, hp, hs, h6', h7, h7.1, hpw, List.find?]
              · by_cases hrole : c.role = "instructor"
                · have hpw : some p.wing_id = c.wing_id := by
                    by_contra hne
                    exact h4 ⟨hrole, hne⟩
                  have hsw : some s.wing_id = c.wing_id := by
                    by_contra hne
                    exact h7 ⟨hrole, hne⟩
                  simp [h1, h2, hp, hs, h6', hrole, hpw, hsw, List.find?]
                · simp [h1, h2, hp, hs, h6', hrole, List.find?]
    · simp [h1, h2, List.find?]

/-- Under the `UNIQUE(pilot_id, skill_id)` constraint, the number of FMQ/IP
rows of a pilot equals the number of distinct skills they hold at FMQ/IP. -/
lemma fmq_rowCount_eq_distinct (db : DB)
    (hq : (db.quals.map (fun q => (q.pilot_id, q.skill_id))).Nodup) (pid : Nat) :
    ((fmqQuals db.quals).filter (fun q => q.pilot_id = pid)).length =
      distinctFmqSkillCount db pid := by
  set l := (fmqQuals db.quals).filter (fun q => decide (q.pilot_id = pid)) with hl
  have hsub : l.Sublist db.quals :=
    (List.filter_sublist _).trans (List.filter_sublist _)
  have hpairs : (l.map (fun q => (q.pilot_id, q.skill_id))).Nodup :=
    (hsub.map _).nodup hq
  have hall : ∀ q ∈ l, q.pilot_id = pid := by
    intro q hql
    have := (List.mem_filter.mp hql).2
    simpa using this
  have hmapeq : l.map (fun q => (q.pilot_id, q.skill_id)) =
      (l.map (fun q => q.skill_id)).map (fun sk => (pid, sk)) := by
    rw [List.map_map]
    exact List.map_congr_left (fun q hql => by simp [hall q hql])
  have hskills : (l.map (fun q => q.skill_id)).Nodup := by
    apply List.Nodup.of_map (fun sk => (pid, sk))
    rw [← hmapeq]
    exact hpairs
  rw [distinctFmqSkillCount]
  rw [List.dedup_eq_self.mpr hskills, List.length_map]

/-- A combat-ready pilot id occurs in some FMQ/IP row. -/
lemma distinct_pos_row (db : DB) (pid : Nat)
    (h : 3 ≤ distinctFmqSkillCount db pid) :
    ∃ q ∈ fmqQuals db.quals, q.pilot_id = pid := by
  rw [distinctFmqSkillCount] at h
  rcases hl : (fmqQuals db.quals).filter (fun q => decide (q.pilot_id = pid)) with _ | ⟨q, t⟩
  · rw [hl] at h; simp at h
  · have hq : q ∈ (fmqQuals db.quals).filter (fun q => decide (q.pilot_id = pid)) := by
      rw [hl]; simp
    rcases List.mem_filter.mp hq with ⟨hmem, hcond⟩
    exact ⟨q, hmem, by simpa using hcond⟩

/-- C7 membership, global form. -/
lemma mem_readyIdsGlobal (db : DB)
    (hq : (db.quals.map (fun q => (q.pilot_id, q.skill_id))).Nodup) (pid : Nat) :
    pid ∈ readyIdsGlobal db ↔ 3 ≤ distinctFmqSkillCount db pid := by
  rw [readyIdsGlobal]
  constructor
  · intro h
    rcases List.mem_filter.mp h with ⟨_, hcount⟩
    rw [← fmq_rowCount_eq_distinct db hq pid]
    simpa using hcount
  · intro h
    apply List.mem_filter.mpr
    refine ⟨?_, by simpa using (fmq_rowCount_eq_distinct db hq pid).symm ▸ h⟩
    apply List.mem_dedup.mpr
    obtain ⟨q, hmem, hpid⟩ := distinct_pos_row db pid h
    exact List.mem_map.mpr ⟨q, hmem, hpid⟩

/-- With unique pilot ids, a filter that pins the pilot id keeps at most one row. -/
lemma filter_id_small {P : List Pilot} (hp : (P.map (fun p => p.id)).Nodup)
    (cond : Pilot → Bool) (v : Nat) (hc : ∀ p, cond p = true → p.id = v) :
    P.filter cond = [] ∨ ∃ p, P.filter cond = [p] := by
  induction P with
  | nil => left; rfl
  | cons p0 ps ih =>
    rw [List.map_cons, List.nodup_cons] at hp
    rw [List.filter_cons]
    by_cases h0 : cond p0 = true
    · simp only [h0, if_true]
      right
      refine ⟨p0, ?_⟩
      have hnil : ps.filter cond = [] := by
        rw [List.filter_eq_nil_iff]
        intro a ha hca
        exact hp.1 (List.mem_map.mpr ⟨a, ha, by rw [hc a hca, hc p0 h0]⟩)
      rw [hnil]
    · simp only [h0, Bool.false_eq_true, if_false]
      exact ih hp.2

/-- With unique pilot ids, projecting the wing-filtered join back to its
qualification rows is a plain filter on the FMQ/IP rows. -/
lemma wingFmqRows_map_fst (db : DB) (w : Nat)
    (hp : (db.pilots.map (fun p => p.id)).Nodup) :
    (wingFmqRows db w).map Prod.fst =
      (fmqQuals db.quals).filter
        (fun q => db.pilots.any (fun p => p.id = q.pilot_id ∧ p.wing_id = w)) := by
  rw [wingFmqRows]
  induction fmqQuals db.quals with
  | nil => rfl
  | cons q L ih =>
    rw [List.flatMap_cons, List.map_append, ih, List.filter_cons]
    rcases filter_id_small hp (fun p => decide (p.id = q.pilot_id ∧ p.wing_id = w))
        q.pilot_id (fun p hcp => (of_decide_eq_true hcp).1) with hnil | ⟨p, hone⟩
    · have hany : (db.pilots.any (fun p => p.id = q.pilot_id ∧ p.wing_id = w)) = false := by
        rw [List.any_eq_false]
        intro p hpm
        have := List.filter_eq_nil_iff.mp hnil p hpm
        simpa using this
      rw [hnil, hany]
      simp
    · have hpmem : p ∈ db.pilots.filter (fun p => decide (p.id = q.pilot_id ∧ p.wing_id = w)) := by
        rw [hone]; simp
      rcases List.mem_filter.mp hpmem with ⟨hmem, hcond⟩
      have hany : (db.pilots.any (fun p => p.id = q.pilot_id ∧ p.wing_id = w)) = true :=
        List.any_eq_true.mpr ⟨p, hmem, hcond⟩
      rw [hone, hany]
      simp

/-- Filtering pairs on a property of the first component matches filtering
the projected list. -/
lemma filter_fst_length {α β : Type} (lp : List (α × β)) (pred : α → Bool) :
    (lp.filter (fun ab => pred ab.1)).length = ((lp.map Prod.fst).filter pred).length := by
  induction lp with
  | nil => rfl
  | cons ab t ih =>
    rw [List.map_cons, List.filter_cons, List.filter_cons]
    by_cases h : pred ab.1 = true
    · simp only [h, if_true, List.length_cons, ih]
    · simp only [h, Bool.false_eq_true, if_false, ih]

lemma wingRowCount_mem (db : DB) (w pid : Nat)
    (hp : (db.pilots.map (fun p => p.id)).Nodup)
    (hex : ∃ p ∈ db.pilots, p.id = pid ∧ p.wing_id = w) :
    ((wingFmqRows db w).filter (fun qp => qp.1.pilot_id = pid)).length =
      ((fmqQuals db.quals).filter (fun q => q.pilot_id = pid)).length := by
  rw [filter_fst_length (wingFmqRows db w) (fun q => decide (q.pilot_id = pid)),
    wingFmqRows_map_fst db w hp, List.filter_filter]
  apply congrArg List.length
  apply List.filter_congr
  intro q hq
  by_cases hqp : q.pilot_id = pid
  · obtain ⟨p, hpm, hpid, hpw⟩ := hex
    simp only [hqp, decide_true_eq_true, decide_eq_true_eq, Bool.true_and]
    simp only [List.any_eq_true, decide_eq_true_eq]
    exact ⟨p, hpm, by rw [hpid], hpw⟩
  · simp [hqp]

lemma wingRowCount_nomem (db : DB) (w pid : Nat)
    (hp : (db.pilots.map (fun p => p.id)).Nodup)
    (hnex : ¬∃ p ∈ db.pilots, p.id = pid ∧ p.wing_id = w) :
    ((wingFmqRows db w).filter (fun qp => qp.1.pilot_id = pid)).length = 0 := by
  rw [filter_fst_length (wingFmqRows db w) (fun q => decide (q.pilot_id = pid)),
    wingFmqRows_map_fst db w hp, List.filter_filter,
    List.length_eq_zero, List.filter_eq_nil_iff]
  intro q hq hcomb
  simp only [Bool.and_eq_true, decide_eq_true_eq] at hcomb
  rcases List.any_eq_true.mp hcomb.2 with ⟨p, hpm, hcond⟩
  have hcond' := of_decide_eq_true hcond
  exact hnex ⟨p, hpm, by rw [hcond'.1, hcomb.1], hcond'.2⟩

lemma wing_keys_eq (db : DB) (w : Nat)
    (hp : (db.pilots.map (fun p => p.id)).Nodup) :
    (wingFmqRows db w).map (fun qp => qp.1.pilot_id) =
      ((fmqQuals db.quals).filter
        (fun q => db.pilots.any (fun p => p.id = q.pilot_id ∧ p.wing_id = w))).map
        (fun q => q.pilot_id) := by
  have : (wingFmqRows db w).map (fun qp => qp.1.pilot_id) =
      ((wingFmqRows db w).map Prod.fst).map (fun q => q.pilot_id) := by
    rw [List.map_map]; rfl
  rw [this, wingFmqRows_map_fst db w hp]

/-- C7 membership, wing form. -/
lemma mem_readyIdsWing (db : DB) (w pid : Nat)
    (hp : (db.pilots.map (fun p => p.id)).Nodup)
    (hq : (db.quals.map (fun q => (q.pilot_id, q.skill_id))).Nodup) :
    pid ∈ readyIdsWing db w ↔
      (∃ p ∈ db.pilots, p.id = pid ∧ p.wing_id = w) ∧
        3 ≤ distinctFmqSkillCount db pid := by
  rw [readyIdsWing]
  constructor
  · intro h
    rcases List.mem_filter.mp h with ⟨hkey, hcount⟩
    have hkey' := List.mem_dedup.mp hkey
    rw [wing_keys_eq db w hp] at hkey'
    rcases List.mem_map.mp hkey' with ⟨q, hqmem, hqpid⟩
    rcases List.mem_filter.mp hqmem with ⟨_, hany⟩
    rcases List.any_eq_true.mp hany with ⟨p, hpm, hcond⟩
    have hcond' := of_decide_eq_true hcond
    have hex : ∃ p ∈ db.pilots, p.id = pid ∧ p.wing_id = w :=
      ⟨p, hpm, by rw [hcond'.1, hqpid], hcond'.2⟩
    refine ⟨hex, ?_⟩
    rw [← fmq_rowCount_eq_distinct db hq pid, ← wingRowCount_mem db w pid hp hex]
    simpa using hcount
  · rintro ⟨hex, hdist⟩
    apply List.mem_filter.mpr
    obtain ⟨q, hqm, hqpid⟩ := distinct_pos_row db pid hdist
    have hany : (db.pilots.any (fun p => p.id = q.pilot_id ∧ p.wing_id = w)) = true := by
      obtain ⟨p, hpm, hpid, hpw⟩ := hex
      exact List.any_eq_true.mpr ⟨p, hpm, by simp [hpid, hqpid, hpw]⟩
    constructor
    · apply List.mem_dedup.mpr
      rw [wing_keys_eq db w hp]
      exact List.mem_map.mpr ⟨q, List.mem_filter.mpr ⟨hqm, hany⟩, hqpid⟩
    · rw [decide_eq_true_eq, wingRowCount_mem db w pid hp hex,
        fmq_rowCount_eq_distinct db hq pid]
      exact hdist

/-- C7: `combat_ready_pilots` counts exactly the pilots holding FMQ or IP on
three or more distinct skills — globally the group keys are the pilot ids
with at least three such skills, and with a wing filter exactly the wing's
pilots with at least three; the counts are the cardinalities of those sets,
so a pilot with two FMQ/IP skills is never counted and one with three or
more always is. -/
theorem stats_combat_ready (db : DB) (hdb : schemaOk db) (w : Nat) :
    (∀ pid, pid ∈ readyIdsGlobal db ↔ 3 ≤ distinctFmqSkillCount db pid) ∧
    combatReadyPilotsGlobal db =
      ((db.quals.map (fun q => q.pilot_id)).toFinset.filter
        (fun pid => 3 ≤ distinctFmqSkillCount db pid)).card ∧
    (∀ pid, pid ∈ readyIdsWing db w ↔
      (∃ p ∈ db.pilots, p.id = pid ∧ p.wing_id = w) ∧
        3 ≤ distinctFmqSkillCount db pid) ∧
    combatReadyPilotsWing db w =
      (((db.pilots.filter (fun p => p.wing_id = w)).map (fun p => p.id)).toFinset.filter
        (fun pid => 3 ≤ distinctFmqSkillCount db pid)).card := by
  obtain ⟨hp, hsk, hq⟩ := hdb
  have hglobal := fun pid => mem_readyIdsGlobal db hq pid
  have hwing := fun pid => mem_readyIdsWing db w pid hp hq
  refine ⟨hglobal, ?_, hwing, ?_⟩
  · rw [combatReadyPilotsGlobal]
    have hnd : (readyIdsGlobal db).Nodup := List.Nodup.filter _ (List.nodup_dedup _)
    rw [← List.toFinset_card_of_nodup hnd]
    congr 1
    apply Finset.ext
    intro a
    rw [List.mem_toFinset, Finset.mem_filter, List.mem_toFinset, hglobal a]
    constructor
    · intro h
      refine ⟨?_, h⟩
      obtain ⟨qq, hqm, hqpid⟩ := distinct_pos_row db a h
      exact List.mem_map.mpr ⟨qq, List.mem_of_mem_filter hqm, hqpid⟩
    · exact fun h => h.2
  · rw [combatReadyPilotsWing]
    have hnd : (readyIdsWing db w).Nodup := List.Nodup.filter _ (List.nodup_dedup _)
    rw [← List.toFinset_card_of_nodup hnd]
    congr 1
    apply Finset.ext
    intro a
    rw [List.mem_toFinset, Finset.mem_filter, List.mem_toFinset, hwing a]
    constructor
    · rintro ⟨⟨p, hpm, hpid, hpw⟩, hdist⟩
      exact ⟨List.mem_map.mpr ⟨p, List.mem_filter.mpr ⟨hpm, by simpa using hpw⟩, hpid⟩,
        hdist⟩
    · rintro ⟨hmem, hdist⟩
      rcases List.mem_map.mp hmem with ⟨p, hpf, hpid⟩
      rcases List.mem_filter.mp hpf with ⟨hpm, hpw⟩
      exact ⟨⟨p, hpm, hpid, by simpa using hpw⟩, hdist⟩

theorem stats_combat_ready_witness :
    schemaOk statsDB ∧
    (1 ∈ readyIdsGlobal statsDB ↔ 3 ≤ distinctFmqSkillCount statsDB 1) ∧
    combatReadyPilotsGlobal statsDB =
      ((statsDB.quals.map (fun q => q.pilot_id)).toFinset.filter
        (fun pid => 3 ≤ distinctFmqSkillCount statsDB pid)).card :=
  ⟨by decide, (stats_combat_ready statsDB (by decide) 1).1 1,
   (stats_combat_ready statsDB (by decide) 1).2.1⟩

end Squadron
